import Mathlib

/-!
Shallow embedding of the core of `streamctl` (`src/kinesis.rs`): the `push`
batch accumulator and the `tail` shard-polling loop, together with the
SeaHash-based partition key and the record decoder.

Byte strings are modelled as `List Nat` (each element a byte value), machine
integers as `Nat` with explicit reduction modulo `2 ^ 64` where the Rust code
works on `u64`.
-/

/-- `const ONE_MIB: usize = 1024 * 1024;` (kinesis.rs line 10). -/
def ONE_MIB : Nat := 1024 * 1024

/-! ### SeaHash

`push` derives each record's partition key via `seahash::hash(line.as_bytes())`
(kinesis.rs line 191).  `seahash` is a third-party dependency; the definitions
below follow its published reference implementation (`reference.rs` of the
`seahash` crate): the buffer is split into little-endian chunks of up to eight
bytes, each chunk is diffused into a four-word rotating state seeded with the
crate's fixed seeds, and the finalizer diffuses the XOR of the state words and
the total length. -/

/-- `helper::diffuse` of the seahash crate, on `u64` modelled as `Nat % 2^64`. -/
def diffuse (x : Nat) : Nat :=
  let x := x * 0x6eed0e9da4d94a4f % 2 ^ 64
  let a := x >>> 32
  let b := x >>> 60
  let x := x ^^^ (a >>> b)
  x * 0x6eed0e9da4d94a4f % 2 ^ 64

/-- Little-endian read of up to eight bytes into a `u64`. -/
def readInt (bytes : List Nat) : Nat :=
  bytes.foldr (fun b acc => acc * 256 + b % 256) 0

/-- Split a byte string into chunks of eight (the last chunk may be shorter),
with explicit fuel so the definition reduces structurally. -/
def chunks8Aux : Nat → List Nat → List (List Nat)
  | _, [] => []
  | 0, l => [l]
  | fuel + 1, b :: rest => (b :: rest.take 7) :: chunks8Aux fuel (rest.drop 7)

def chunks8 (l : List Nat) : List (List Nat) := chunks8Aux l.length l

/-- One round of the seahash state: mix a chunk word into `a`, rotate. -/
structure SeaState where
  a : Nat
  b : Nat
  c : Nat
  d : Nat
deriving Repr

def seaWrite (s : SeaState) (x : Nat) : SeaState :=
  ⟨s.b, s.c, s.d, diffuse (s.a ^^^ x)⟩

/-- `seahash::hash_seeded` (reference implementation). -/
def seahashSeeded (buf : List Nat) (a b c d : Nat) : Nat :=
  let s := (chunks8 buf).foldl (fun s chunk => seaWrite s (readInt chunk)) ⟨a, b, c, d⟩
  diffuse (s.a ^^^ s.b ^^^ s.c ^^^ s.d ^^^ buf.length % 2 ^ 64)

/-- `seahash::hash`, with the crate's fixed seeds. -/
def seahash (buf : List Nat) : Nat :=
  seahashSeeded buf 0x16f11fe89b0d677c 0xb480a793d8e6c86c 0x6fe2e5aaf078ebc9
    0x14f994a4c5259381

/-- `format!("{:x}", seahash::hash(line.as_bytes()))` (kinesis.rs line 191):
lowercase hexadecimal with no width specifier, hence no leading zeros. -/
def partitionKey (payload : List Nat) : List Char :=
  Nat.toDigits 16 (seahash payload)

/-! ### The `push` accumulator (kinesis.rs lines 163-214) -/

/-- `PutRecordsRequestEntry`: partition key plus `Blob` payload. -/
structure PutRecordsRequestEntry where
  partition_key : List Char
  data : List Nat
deriving Repr, DecidableEq

/-- The mutable loop state of `push`: `num_bytes`, `num_records`, `records`. -/
structure PushState where
  num_bytes : Nat
  num_records : Nat
  records : List PutRecordsRequestEntry
deriving Repr, DecidableEq

def pushInit : PushState := ⟨0, 0, []⟩

/-- Total payload bytes held in a batch. -/
def batchBytes (records : List PutRecordsRequestEntry) : Nat :=
  (records.map (fun e => e.data.length)).sum

/-- One iteration of the `while let Some(line) = lines.next_line()` loop of
`push` (kinesis.rs lines 172-205).  Returns the successor state, the batches
handed to `put_records` during this iteration (in dispatch order), and
`some i` when the oversized-record diagnostic naming record `#i` is printed.
Note that the first flush branch (line 180-187) does not reset `num_bytes`;
only the 500-record flush (line 196-204) does. -/
def pushStep (s : PushState) (line : List Nat) :
    PushState × List (List PutRecordsRequestEntry) × Option Nat :=
  let record_len := line.length
  let num_records := s.num_records + 1
  if record_len > ONE_MIB then
    ({ s with num_records := num_records }, [], some num_records)
  else
    let flushed := if s.num_bytes + record_len > 5 * ONE_MIB then [s.records] else []
    let records₁ := if s.num_bytes + record_len > 5 * ONE_MIB then [] else s.records
    let num_bytes := s.num_bytes + record_len
    let record : PutRecordsRequestEntry := ⟨partitionKey line, line⟩
    let records₂ := records₁ ++ [record]
    if records₂.length = 500 then
      (⟨0, num_records, []⟩, flushed ++ [records₂], none)
    else
      (⟨num_bytes, num_records, records₂⟩, flushed, none)

/-- One loop iteration acting on the accumulated run result: successor state,
batches dispatched so far, diagnostics printed so far. -/
def pushAccStep (acc : PushState × List (List PutRecordsRequestEntry) × List Nat)
    (line : List Nat) : PushState × List (List PutRecordsRequestEntry) × List Nat :=
  let r := pushStep acc.1 line
  (r.1, acc.2.1 ++ r.2.1, acc.2.2 ++ r.2.2.toList)

/-- Run `push` over a whole input: final state, batches dispatched inside the
loop, and the list of printed skip diagnostics (record ordinals). -/
def pushFold (lines : List (List Nat)) :
    PushState × List (List PutRecordsRequestEntry) × List Nat :=
  lines.foldl pushAccStep (pushInit, [], [])

/-- All batches handed to `put_records`, including the final flush of a
non-empty remainder (kinesis.rs lines 206-208). -/
def pushBatches (lines : List (List Nat)) : List (List PutRecordsRequestEntry) :=
  (pushFold lines).2.1 ++
    (if (pushFold lines).1.records.length > 0 then [(pushFold lines).1.records] else [])

/-- The skip diagnostics printed during a run (kinesis.rs line 177). -/
def pushDiags (lines : List (List Nat)) : List Nat := (pushFold lines).2.2

/-- The record count printed by the completion summary (kinesis.rs line 209-212
prints `num_records`). -/
def pushSummaryCount (lines : List (List Nat)) : Nat :=
  (pushFold lines).1.num_records

/-! ### The `tail` loop (kinesis.rs lines 113-147)

The loop keeps an `Option` shard iterator; while it is present it issues one
`get_records` call per tick, prints each returned record (decoded as UTF-8,
with a placeholder for an absent payload), and replaces the iterator with the
response's `next_shard_iterator`.  Any error from the call or from decoding
propagates out through `?`.  We model the remote side as a script of poll
results consumed positionally. -/

/-- Is `b` a UTF-8 continuation byte (`0x80 ..= 0xBF`)? -/
def utf8Cont (b : Nat) : Bool := 0x80 ≤ b && b ≤ 0xBF

/-- Validity of a byte string as UTF-8, following the acceptance table of
`std::str::from_utf8` (RFC 3629: no overlongs, no surrogates, max U+10FFFF). -/
def utf8Valid : List Nat → Bool
  | [] => true
  | b :: rest =>
    if b ≤ 0x7F then utf8Valid rest
    else if 0xC2 ≤ b && b ≤ 0xDF then
      match rest with
      | c₁ :: rest₁ => utf8Cont c₁ && utf8Valid rest₁
      | [] => false
    else if 0xE0 ≤ b && b ≤ 0xEF then
      match rest with
      | c₁ :: c₂ :: rest₂ =>
        (if b = 0xE0 then 0xA0 ≤ c₁ && c₁ ≤ 0xBF
         else if b = 0xED then 0x80 ≤ c₁ && c₁ ≤ 0x9F
         else utf8Cont c₁) && utf8Cont c₂ && utf8Valid rest₂
      | _ => false
    else if 0xF0 ≤ b && b ≤ 0xF4 then
      match rest with
      | c₁ :: c₂ :: c₃ :: rest₃ =>
        (if b = 0xF0 then 0x90 ≤ c₁ && c₁ ≤ 0xBF
         else if b = 0xF4 then 0x80 ≤ c₁ && c₁ ≤ 0x8F
         else utf8Cont c₁) && utf8Cont c₂ && utf8Cont c₃ && utf8Valid rest₃
      | _ => false
    else false

/-- A record returned by `get_records`: `data` is `Option<Blob>` in the SDK
model, so an absent payload (`None`) is distinct from a present empty one. -/
structure PolledRecord where
  data : Option (List Nat)
deriving Repr, DecidableEq

/-- The bytes of the fixed placeholder `"Record payload is empty."`
(kinesis.rs line 140). -/
def placeholderBytes : List Nat := "Record payload is empty.".toList.map Char.toNat

/-- Decoding of one record in the `tail` loop (kinesis.rs lines 136-140):
`record.data().map(|blob| std::str::from_utf8(blob.as_ref())).transpose()?`
`.unwrap_or("Record payload is empty.")`.  An absent payload yields the
placeholder; a present payload is checked as UTF-8 and printed as-is, a
non-UTF-8 payload is an error that aborts the loop. -/
def decodeRecord (r : PolledRecord) : Except String (List Nat) :=
  match r.data with
  | none => .ok placeholderBytes
  | some bytes => if utf8Valid bytes then .ok bytes else .error "invalid utf-8"

/-- The inner `for record in records` loop: lines printed before a decode
error are emitted; the first decode error, if any, is returned. -/
def decodeAll : List PolledRecord → List (List Nat) × Option String
  | [] => ([], none)
  | r :: rs =>
    match decodeRecord r with
    | .error e => ([], some e)
    | .ok line =>
      let (ls, err) := decodeAll rs
      (line :: ls, err)

/-- A successful `get_records` response: `records` is `Option<Vec<Record>>`,
`next_shard_iterator` is `Option<String>`. -/
structure RecordsOutput where
  records : Option (List PolledRecord)
  next_shard_iterator : Option String
deriving Repr, DecidableEq

/-- One scripted poll: either a response or a transport error. -/
inductive PollStep where
  | ok (out : RecordsOutput)
  | err (e : String)
deriving Repr, DecidableEq

/-- How a run of the `tail` loop ends.  `starved` marks the off-script case of
a still-present cursor with no scripted response left; no claim uses it. -/
inductive TailOutcome where
  | drained
  | failed (e : String)
  | starved
deriving Repr, DecidableEq

/-- The `while let Some(shard_iterator) = shard_iterator_opt` loop of `tail`
(kinesis.rs lines 125-145), run against a script of poll results: returns the
lines printed, in order, and the outcome (`drained` = the loop exits and
`tail` returns `Ok(())`; `failed e` = some `?` propagated `e`). -/
def tailRun : Option String → List PollStep → List (List Nat) × TailOutcome
  | none, _ => ([], .drained)
  | some _, [] => ([], .starved)
  | some _, .err e :: _ => ([], .failed e)
  | some _, .ok out :: rest =>
    let (lines, errOpt) := decodeAll (out.records.getD [])
    match errOpt with
    | some e => (lines, .failed e)
    | none =>
      let (more, res) := tailRun out.next_shard_iterator rest
      (lines ++ more, res)

/-! ### Basic lemmas about one `push` iteration -/

theorem pushStep_oversized (s : PushState) (line : List Nat)
    (h : line.length > ONE_MIB) :
    pushStep s line =
      ({ s with num_records := s.num_records + 1 }, [], some (s.num_records + 1)) := by
  simp [pushStep, h]

theorem pushStep_num_records (s : PushState) (line : List Nat) :
    (pushStep s line).1.num_records = s.num_records + 1 := by
  simp only [pushStep]
  split_ifs <;> rfl

theorem pushStep_diag (s : PushState) (line : List Nat) :
    (pushStep s line).2.2 =
      if line.length > ONE_MIB then some (s.num_records + 1) else none := by
  simp only [pushStep]
  split_ifs <;> rfl

theorem pushFold_num_records_aux (lines : List (List Nat)) :
    ∀ acc, ((lines.foldl pushAccStep acc).1.num_records = acc.1.num_records + lines.length) := by
  induction lines with
  | nil => intro acc; simp
  | cons l ls ih =>
    intro acc
    rw [List.foldl_cons, ih]
    simp [pushAccStep, pushStep_num_records]
    omega

theorem pushFold_num_records (lines : List (List Nat)) :
    (pushFold lines).1.num_records = lines.length := by
  simpa [pushFold, pushInit] using pushFold_num_records_aux lines (pushInit, [], [])

/-! ### Data preservation through the accumulator -/

theorem pushStep_data (s : PushState) (line : List Nat) :
    ((pushStep s line).2.1.flatten ++ (pushStep s line).1.records).map (fun e => e.data) =
      (s.records.map fun e => e.data) ++
        if line.length ≤ ONE_MIB then [line] else [] := by
  simp only [pushStep]
  split_ifs <;> (try simp) <;> omega

/-- `pushStep_data`, restated with an arbitrary continuation so it rewrites
under right-nested appends. -/
theorem pushStep_data_cont (s : PushState) (line : List Nat) (t : List (List Nat)) :
    ((pushStep s line).2.1.flatten.map (fun e => e.data)) ++
        (((pushStep s line).1.records.map (fun e => e.data)) ++ t) =
      (s.records.map fun e => e.data) ++
        ((if line.length ≤ ONE_MIB then [line] else []) ++ t) := by
  rw [← List.append_assoc, ← List.append_assoc, ← List.map_append, pushStep_data]

theorem pushFold_data_aux (lines : List (List Nat)) :
    ∀ acc : PushState × List (List PutRecordsRequestEntry) × List Nat,
    ((lines.foldl pushAccStep acc).2.1.flatten ++
        (lines.foldl pushAccStep acc).1.records).map (fun e => e.data) =
      ((acc.2.1.flatten ++ acc.1.records).map (fun e => e.data)) ++
        lines.filter (fun l => l.length ≤ ONE_MIB) := by
  induction lines with
  | nil => intro acc; simp
  | cons l ls ih =>
    intro acc
    rw [List.foldl_cons, ih]
    simp only [pushAccStep, List.flatten_append, List.map_append, List.append_assoc]
    rw [pushStep_data_cont]
    by_cases hk : l.length ≤ ONE_MIB <;> simp [List.filter_cons, hk]

/-- The flattened payloads of all dispatched batches (final partial flush
included) are the non-oversized input lines, in order. -/
theorem pushBatches_data (lines : List (List Nat)) :
    (pushBatches lines).flatten.map (fun e => e.data) =
      lines.filter (fun l => l.length ≤ ONE_MIB) := by
  have h := pushFold_data_aux lines (pushInit, [], [])
  simp only [pushInit, List.flatten_nil, List.nil_append, List.map_nil, List.map_append] at h
  rw [pushBatches]
  by_cases hr : (pushFold lines).1.records.length > 0
  · rw [if_pos hr]
    simpa [pushFold, pushInit, List.flatten_append, List.map_append] using h
  · have hrec : (pushFold lines).1.records = [] := by
      cases hs : (pushFold lines).1.records <;> simp_all
    rw [if_neg hr]
    rw [pushFold] at hrec
    simp only [pushInit] at hrec
    simp only [hrec, List.map_nil, List.append_nil] at h
    simpa [pushFold, pushInit] using h

/-! ### Diagnostics and line counting -/

theorem pushFold_diags_aux (lines : List (List Nat)) :
    ∀ acc : PushState × List (List PutRecordsRequestEntry) × List Nat,
    (lines.foldl pushAccStep acc).2.2.length =
      acc.2.2.length + (lines.filter (fun l => ONE_MIB < l.length)).length := by
  induction lines with
  | nil => intro acc; simp
  | cons l ls ih =>
    intro acc
    rw [List.foldl_cons, ih]
    simp only [pushAccStep, List.length_append, List.filter_cons]
    rw [pushStep_diag]
    by_cases h : ONE_MIB < l.length <;> simp [h, gt_iff_lt] <;> omega

theorem kept_plus_skipped (lines : List (List Nat)) :
    (lines.filter (fun l => l.length ≤ ONE_MIB)).length +
      (lines.filter (fun l => ONE_MIB < l.length)).length = lines.length := by
  induction lines with
  | nil => rfl
  | cons l ls ih =>
    by_cases h : l.length ≤ ONE_MIB
    · have h2 : ¬ ONE_MIB < l.length := by omega
      simp [List.filter_cons, h, h2]
      omega
    · have h2 : ONE_MIB < l.length := by omega
      simp [List.filter_cons, h, h2]
      omega

/-! ### Claim theorems: push data flow -/

/-- C1: for every finite sequence of input lines offered to `push`, the
concatenation of the records across all dispatched batches (including the
final partial batch flushed at end-of-input when non-empty) is exactly the
subsequence of input lines of length at most 1 MiB, in input order. -/
theorem C1_batches_concat_eq_kept_lines (lines : List (List Nat)) :
    (pushBatches lines).flatten.map (fun e => e.data) =
      lines.filter (fun l => l.length ≤ ONE_MIB) :=
  pushBatches_data lines

/-- C9: when `push` completes, the record count printed by the completion
summary equals the total number of input lines read, i.e. the records
dispatched plus the oversized lines skipped (one diagnostic each). -/
theorem C9_summary_counts_all_lines (lines : List (List Nat)) :
    pushSummaryCount lines = lines.length ∧
    pushSummaryCount lines =
      (pushBatches lines).flatten.length + (pushDiags lines).length := by
  have hn := pushFold_num_records lines
  have hdata := congrArg List.length (pushBatches_data lines)
  simp only [List.length_map] at hdata
  have hdiag := pushFold_diags_aux lines (pushInit, [], [])
  have hsplit := kept_plus_skipped lines
  have hdiag' : (pushDiags lines).length =
      (lines.filter (fun l => ONE_MIB < l.length)).length := by
    simpa [pushDiags, pushFold] using hdiag
  refine ⟨by simpa [pushSummaryCount] using hn, ?_⟩
  simp only [pushSummaryCount]
  omega

/-- An input line one byte over the per-record ceiling. -/
def ovLine : List Nat := List.replicate (ONE_MIB + 1) 0

theorem ovLine_length : ovLine.length = ONE_MIB + 1 := by
  rw [ovLine, List.length_replicate]

/-- C8: an input line longer than 1 MiB is skipped: the diagnostic names its
1-based ordinal among all lines read so far, the batch contents and the
cumulative byte counter are unchanged, and nothing is dispatched for it. -/
theorem C8_oversized_line_skipped (lines : List (List Nat)) (i : Nat)
    (hi : i < lines.length) (hov : (lines.getD i []).length > ONE_MIB) :
    pushStep (pushFold (lines.take i)).1 (lines.getD i []) =
      (⟨(pushFold (lines.take i)).1.num_bytes, i + 1, (pushFold (lines.take i)).1.records⟩,
        [], some (i + 1)) := by
  have hn : (pushFold (lines.take i)).1.num_records = i := by
    rw [pushFold_num_records, List.length_take]
    omega
  rw [pushStep_oversized _ _ hov, hn]

theorem C8_witness :
    pushStep (pushFold ([ovLine].take 0)).1 ([ovLine].getD 0 []) =
      (⟨(pushFold ([ovLine].take 0)).1.num_bytes, 1,
        (pushFold ([ovLine].take 0)).1.records⟩, [], some 1) :=
  C8_oversized_line_skipped [ovLine] 0 (by simp) (by simp [ovLine_length])

/-! ### Claim theorems: record decoding in `tail` -/

/-- C10: a polled record whose `data` field is absent decodes to the fixed
placeholder line without failing, and the decoding loop continues with the
remaining records. -/
theorem C10_absent_payload_prints_placeholder (rs : List PolledRecord) :
    decodeRecord ⟨none⟩ = Except.ok placeholderBytes ∧
    decodeAll (⟨none⟩ :: rs) =
      (placeholderBytes :: (decodeAll rs).1, (decodeAll rs).2) := by
  refine ⟨rfl, ?_⟩
  simp only [decodeAll, decodeRecord]

/-- C6 as stated is false: a record with a *present* zero-byte payload decodes
to the empty line, not to the placeholder (the placeholder is substituted only
when the payload field is absent, kinesis.rs lines 136-140). -/
theorem C6_counterexample :
    decodeRecord ⟨some []⟩ = Except.ok [] ∧ placeholderBytes ≠ [] := by
  refine ⟨rfl, ?_⟩
  decide

/-- C6 amended: a record whose payload field is absent decodes to the fixed
placeholder text; a record with a present zero-byte payload decodes to the
empty line; neither case fails. -/
theorem C6_empty_payload_decoding (r : PolledRecord) :
    (r.data = none → decodeRecord r = Except.ok placeholderBytes) ∧
    (r.data = some [] → decodeRecord r = Except.ok []) := by
  obtain ⟨d⟩ := r
  constructor <;> rintro rfl <;> rfl

theorem C6_witness :
    decodeRecord ⟨none⟩ = Except.ok placeholderBytes ∧
    decodeRecord ⟨some []⟩ = Except.ok [] :=
  ⟨(C6_empty_payload_decoding ⟨none⟩).1 rfl, (C6_empty_payload_decoding ⟨some []⟩).2 rfl⟩

/-! ### Batch size/count invariants (C3) -/

theorem batchBytes_append (a b : List PutRecordsRequestEntry) :
    batchBytes (a ++ b) = batchBytes a + batchBytes b := by
  simp [batchBytes]

/-- Invariant of the reachable accumulator states: the byte counter dominates
the bytes actually held, fewer than 500 records are held, and the held bytes
never exceed 5 MiB. -/
def PushInv (s : PushState) : Prop :=
  batchBytes s.records ≤ s.num_bytes ∧
  s.records.length < 500 ∧
  batchBytes s.records ≤ 5 * ONE_MIB

/-- What C3 requires of a dispatched batch. -/
def goodBatch (b : List PutRecordsRequestEntry) : Prop :=
  b.length ≤ 500 ∧ batchBytes b ≤ 5 * ONE_MIB

theorem batchBytes_nil : batchBytes [] = 0 := rfl

theorem batchBytes_singleton (e : PutRecordsRequestEntry) :
    batchBytes [e] = e.data.length := by
  simp [batchBytes]

theorem pushStep_inv (s : PushState) (line : List Nat) (h : PushInv s) :
    PushInv (pushStep s line).1 ∧ ∀ b ∈ (pushStep s line).2.1, goodBatch b := by
  obtain ⟨h1, h2, h3⟩ := h
  have hgood : goodBatch s.records := ⟨by omega, h3⟩
  have hrec : batchBytes (s.records ++ [⟨partitionKey line, line⟩]) =
      batchBytes s.records + line.length := by
    simp [batchBytes_append, batchBytes_singleton]
  have hone : batchBytes [(⟨partitionKey line, line⟩ : PutRecordsRequestEntry)] =
      line.length := by
    simp [batchBytes_singleton]
  simp only [pushStep]
  split_ifs with hov hfl h500 <;> (try dsimp only)
  · exact ⟨⟨h1, h2, h3⟩, by simp⟩
  · refine ⟨⟨by simp [batchBytes_nil], by simp, by simp [batchBytes_nil]⟩, ?_⟩
    intro b hb
    simp only [List.singleton_append, List.mem_cons, List.mem_singleton,
      List.not_mem_nil, or_false, List.nil_append] at hb
    rcases hb with rfl | rfl
    · exact hgood
    · exact ⟨by simp, by rw [hone]; omega⟩
  · refine ⟨⟨?_, ?_, ?_⟩, ?_⟩
    · simp only [List.nil_append]
      rw [hone]
      omega
    · simp
    · simp only [List.nil_append]
      rw [hone]
      omega
    · intro b hb
      simp only [List.mem_singleton] at hb
      subst hb
      exact hgood
  · rename_i h500'
    refine ⟨⟨by simp [batchBytes_nil], by simp, by simp [batchBytes_nil]⟩, ?_⟩
    intro b hb
    simp only [List.nil_append, List.mem_singleton] at hb
    subst hb
    constructor
    · simp only [List.length_append, List.length_singleton]
      omega
    · rw [hrec]
      omega
  · rename_i h500'
    refine ⟨⟨?_, ?_, ?_⟩, by simp⟩
    · dsimp only
      rw [hrec]
      omega
    · simp only [List.length_append, List.length_singleton] at h500' ⊢
      omega
    · rw [hrec]
      omega

theorem pushFold_inv_aux (lines : List (List Nat)) :
    ∀ acc : PushState × List (List PutRecordsRequestEntry) × List Nat,
    PushInv acc.1 → (∀ b ∈ acc.2.1, goodBatch b) →
      PushInv (lines.foldl pushAccStep acc).1 ∧
      ∀ b ∈ (lines.foldl pushAccStep acc).2.1, goodBatch b := by
  induction lines with
  | nil => intro acc h1 h2; exact ⟨h1, h2⟩
  | cons l ls ih =>
    intro acc h1 h2
    rw [List.foldl_cons]
    obtain ⟨hs, hb⟩ := pushStep_inv acc.1 l h1
    refine ih _ hs ?_
    intro b hb'
    simp only [pushAccStep, List.mem_append] at hb'
    rcases hb' with hb' | hb'
    · exact h2 b hb'
    · exact hb b hb'

/-- C3: every dispatched batch holds at most 500 records and at most 5 MiB of
payload bytes (the documented single-record-at-the-ceiling edge case cannot
arise, since every appended record is at most 1 MiB < 5 MiB), and the
accumulator never retains 500 records: a batch reaching 500 is flushed in the
same iteration. -/
theorem C3_batch_bounds (lines : List (List Nat)) :
    (∀ b ∈ pushBatches lines, b.length ≤ 500 ∧ batchBytes b ≤ 5 * ONE_MIB) ∧
    (pushFold lines).1.records.length < 500 := by
  obtain ⟨hinv, hgood⟩ := pushFold_inv_aux lines (pushInit, [], [])
    (by exact ⟨by simp [pushInit, batchBytes_nil], by simp [pushInit], by simp [pushInit, batchBytes_nil]⟩)
    (by simp)
  constructor
  · intro b hb
    rw [pushBatches] at hb
    rcases List.mem_append.1 hb with h | h
    · exact hgood b h
    · have hb' : b = (pushFold lines).1.records := by
        by_cases hr : (pushFold lines).1.records.length > 0
        · rw [if_pos hr] at h
          simpa using h
        · rw [if_neg hr] at h
          simp at h
      subst hb'
      exact ⟨le_of_lt hinv.2.1, hinv.2.2⟩
  · exact hinv.2.1

theorem C3_witness :
    (pushBatches [[97]]).getD 0 [] ∈ pushBatches [[97]] ∧
    (((pushBatches [[97]]).getD 0 []).length ≤ 500 ∧
      batchBytes ((pushBatches [[97]]).getD 0 []) ≤ 5 * ONE_MIB) := by
  have h : (pushBatches [[97]]).getD 0 [] ∈ pushBatches [[97]] := by decide
  exact ⟨h, (C3_batch_bounds [[97]]).1 _ h⟩

/-! ### Partition keys (C7) -/

theorem pushStep_keys (s : PushState) (line : List Nat)
    (h : ∀ e ∈ s.records, e.partition_key = partitionKey e.data) :
    (∀ e ∈ (pushStep s line).1.records, e.partition_key = partitionKey e.data) ∧
    (∀ b ∈ (pushStep s line).2.1, ∀ e ∈ b, e.partition_key = partitionKey e.data) := by
  simp only [pushStep]
  split_ifs with hov hfl h500 <;> (try dsimp only)
  · exact ⟨h, by simp⟩
  · refine ⟨by simp, ?_⟩
    intro b hb
    simp only [List.singleton_append, List.mem_cons, List.mem_singleton,
      List.not_mem_nil, or_false, List.nil_append] at hb
    rcases hb with rfl | rfl
    · exact h
    · intro e he
      simp only [List.mem_singleton] at he
      subst he
      rfl
  · refine ⟨?_, ?_⟩
    · intro e he
      simp only [List.nil_append, List.mem_singleton] at he
      subst he
      rfl
    · intro b hb
      simp only [List.mem_singleton] at hb
      subst hb
      exact h
  · refine ⟨by simp, ?_⟩
    intro b hb
    simp only [List.nil_append, List.mem_singleton] at hb
    subst hb
    intro e he
    rcases List.mem_append.1 he with he | he
    · exact h e he
    · simp only [List.mem_singleton] at he
      subst he
      rfl
  · refine ⟨?_, by simp⟩
    intro e he
    rcases List.mem_append.1 he with he | he
    · exact h e he
    · simp only [List.mem_singleton] at he
      subst he
      rfl

theorem pushFold_keys_aux (lines : List (List Nat)) :
    ∀ acc : PushState × List (List PutRecordsRequestEntry) × List Nat,
    (∀ e ∈ acc.1.records, e.partition_key = partitionKey e.data) →
    (∀ b ∈ acc.2.1, ∀ e ∈ b, e.partition_key = partitionKey e.data) →
      (∀ e ∈ (lines.foldl pushAccStep acc).1.records,
          e.partition_key = partitionKey e.data) ∧
      ∀ b ∈ (lines.foldl pushAccStep acc).2.1, ∀ e ∈ b,
          e.partition_key = partitionKey e.data := by
  induction lines with
  | nil => intro acc h1 h2; exact ⟨h1, h2⟩
  | cons l ls ih =>
    intro acc h1 h2
    rw [List.foldl_cons]
    obtain ⟨hs, hb⟩ := pushStep_keys acc.1 l h1
    refine ih _ hs ?_
    intro b hb'
    simp only [pushAccStep, List.mem_append] at hb'
    rcases hb' with hb' | hb'
    · exact h2 b hb'
    · exact hb b hb'

theorem pushBatches_keys (lines : List (List Nat)) :
    ∀ b ∈ pushBatches lines, ∀ e ∈ b, e.partition_key = partitionKey e.data := by
  obtain ⟨hst, hbs⟩ := pushFold_keys_aux lines (pushInit, [], []) (by simp [pushInit]) (by simp)
  intro b hb
  rw [pushBatches] at hb
  rcases List.mem_append.1 hb with h | h
  · exact hbs b h
  · have hb' : b = (pushFold lines).1.records := by
      by_cases hr : (pushFold lines).1.records.length > 0
      · rw [if_pos hr] at h
        simpa using h
      · rw [if_neg hr] at h
        simp at h
    subst hb'
    exact hst

/-- C7 as stated is false in one respect: `format!("{:x}", …)` has no width
specifier, so the hexadecimal key has no leading zeros and its length varies
with the magnitude of the hash.  On the two-line input `["a", "h"]` the two
dispatched records carry keys of different lengths. -/
theorem C7_counterexample :
    ¬ ∀ e₁ ∈ (pushBatches [[97], [104]]).flatten,
      ∀ e₂ ∈ (pushBatches [[97], [104]]).flatten,
        e₁.partition_key.length = e₂.partition_key.length := by
  decide

/-- C7 amended: the partition key of every dispatched record is the
(variable-width, lowercase) hexadecimal encoding of the SeaHash of its
payload; in particular the key is a pure function of the payload, so records
with identical payloads carry identical keys, across batches. -/
theorem C7_partition_key_pure_hash (lines : List (List Nat)) :
    (∀ b ∈ pushBatches lines, ∀ e ∈ b,
        e.partition_key = Nat.toDigits 16 (seahash e.data)) ∧
    (∀ b₁ ∈ pushBatches lines, ∀ b₂ ∈ pushBatches lines,
      ∀ e₁ ∈ b₁, ∀ e₂ ∈ b₂,
        e₁.data = e₂.data → e₁.partition_key = e₂.partition_key) := by
  have hkeys := pushBatches_keys lines
  constructor
  · intro b hb e he
    exact hkeys b hb e he
  · intro b₁ h₁ b₂ h₂ e₁ he₁ e₂ he₂ hdata
    rw [hkeys b₁ h₁ e₁ he₁, hkeys b₂ h₂ e₂ he₂, partitionKey, partitionKey, hdata]

theorem C7_witness :
    ((pushBatches [[97]]).getD 0 []).getD 0 ⟨[], []⟩ ∈ (pushBatches [[97]]).getD 0 [] ∧
    (pushBatches [[97]]).getD 0 [] ∈ pushBatches [[97]] ∧
    (((pushBatches [[97]]).getD 0 []).getD 0 ⟨[], []⟩).partition_key =
      Nat.toDigits 16 (seahash ((((pushBatches [[97]]).getD 0 []).getD 0 ⟨[], []⟩).data)) := by
  have hb : (pushBatches [[97]]).getD 0 [] ∈ pushBatches [[97]] := by decide
  have he : ((pushBatches [[97]]).getD 0 []).getD 0 ⟨[], []⟩ ∈ (pushBatches [[97]]).getD 0 [] := by
    decide
  exact ⟨he, hb, (C7_partition_key_pure_hash [[97]]).1 _ hb _ he⟩

/-! ### The byte pre-check counter (C2)

The pre-check at kinesis.rs line 180 compares `num_bytes + record_len` against
5 MiB, but the flush it triggers (lines 181-187) does not reset `num_bytes`;
only the 500-record flush does (line 203).  The lemmas below evaluate a run of
seven 1 MiB lines, where the counter and the actual batch content diverge. -/

def mibLine : List Nat := List.replicate ONE_MIB 97

theorem mibLine_length : mibLine.length = ONE_MIB := by
  rw [mibLine, List.length_replicate]

def mibEntry : PutRecordsRequestEntry := ⟨partitionKey mibLine, mibLine⟩

def sevenMibLines : List (List Nat) :=
  [mibLine, mibLine, mibLine, mibLine, mibLine, mibLine, mibLine]

theorem step_mib_small (s : PushState) (hnb : s.num_bytes + ONE_MIB ≤ 5 * ONE_MIB)
    (hlen : s.records.length ≠ 499) :
    pushStep s mibLine =
      (⟨s.num_bytes + ONE_MIB, s.num_records + 1, s.records ++ [mibEntry]⟩, [], none) := by
  have h1 : ¬ (ONE_MIB > ONE_MIB) := by omega
  have h2 : ¬ (s.num_bytes + ONE_MIB > 5 * ONE_MIB) := by omega
  simp [pushStep, h1, h2, hlen, mibEntry, mibLine_length]

theorem step_mib_flush (s : PushState) (hnb : s.num_bytes + ONE_MIB > 5 * ONE_MIB) :
    pushStep s mibLine =
      (⟨s.num_bytes + ONE_MIB, s.num_records + 1, [mibEntry]⟩, [s.records], none) := by
  have h1 : ¬ (ONE_MIB > ONE_MIB) := by omega
  simp [pushStep, h1, hnb, mibEntry, mibLine_length]

theorem sevenMib_acc0 :
    pushAccStep (pushInit, [], []) mibLine =
      ((⟨1048576, 1, [mibEntry]⟩ : PushState), [], []) := by
  simp only [pushAccStep]
  rw [step_mib_small pushInit (by simp [pushInit, ONE_MIB]) (by simp [pushInit])]
  simp [pushInit, ONE_MIB]

theorem sevenMib_acc1 :
    pushAccStep ((⟨1048576, 1, [mibEntry]⟩ : PushState), [], []) mibLine =
      ((⟨2097152, 2, [mibEntry, mibEntry]⟩ : PushState), [], []) := by
  simp only [pushAccStep]
  rw [step_mib_small _ (by simp [ONE_MIB]) (by simp)]
  simp [ONE_MIB]

theorem sevenMib_acc2 :
    pushAccStep ((⟨2097152, 2, [mibEntry, mibEntry]⟩ : PushState), [], []) mibLine =
      ((⟨3145728, 3, [mibEntry, mibEntry, mibEntry]⟩ : PushState), [], []) := by
  simp only [pushAccStep]
  rw [step_mib_small _ (by simp [ONE_MIB]) (by simp)]
  simp [ONE_MIB]

theorem sevenMib_acc3 :
    pushAccStep ((⟨3145728, 3, [mibEntry, mibEntry, mibEntry]⟩ : PushState), [], []) mibLine =
      ((⟨4194304, 4, [mibEntry, mibEntry, mibEntry, mibEntry]⟩ : PushState), [], []) := by
  simp only [pushAccStep]
  rw [step_mib_small _ (by simp [ONE_MIB]) (by simp)]
  simp [ONE_MIB]

theorem sevenMib_acc4 :
    pushAccStep ((⟨4194304, 4, [mibEntry, mibEntry, mibEntry, mibEntry]⟩ : PushState),
        [], []) mibLine =
      ((⟨5242880, 5, [mibEntry, mibEntry, mibEntry, mibEntry, mibEntry]⟩ : PushState),
        [], []) := by
  simp only [pushAccStep]
  rw [step_mib_small _ (by simp [ONE_MIB]) (by simp)]
  simp [ONE_MIB]

theorem sevenMib_acc5 :
    pushAccStep ((⟨5242880, 5, [mibEntry, mibEntry, mibEntry, mibEntry, mibEntry]⟩ : PushState),
        [], []) mibLine =
      ((⟨6291456, 6, [mibEntry]⟩ : PushState),
        [[mibEntry, mibEntry, mibEntry, mibEntry, mibEntry]], []) := by
  simp only [pushAccStep]
  rw [step_mib_flush _ (by simp [ONE_MIB])]
  simp [ONE_MIB]

theorem sevenMib_acc6 :
    pushAccStep ((⟨6291456, 6, [mibEntry]⟩ : PushState),
        [[mibEntry, mibEntry, mibEntry, mibEntry, mibEntry]], []) mibLine =
      ((⟨7340032, 7, [mibEntry]⟩ : PushState),
        [[mibEntry, mibEntry, mibEntry, mibEntry, mibEntry], [mibEntry]], []) := by
  simp only [pushAccStep]
  rw [step_mib_flush _ (by simp [ONE_MIB])]
  simp [ONE_MIB]

theorem pushFold_sixMib :
    pushFold [mibLine, mibLine, mibLine, mibLine, mibLine, mibLine] =
      ((⟨6291456, 6, [mibEntry]⟩ : PushState),
        [[mibEntry, mibEntry, mibEntry, mibEntry, mibEntry]], []) := by
  rw [pushFold]
  rw [List.foldl_cons, sevenMib_acc0, List.foldl_cons, sevenMib_acc1,
    List.foldl_cons, sevenMib_acc2, List.foldl_cons, sevenMib_acc3,
    List.foldl_cons, sevenMib_acc4, List.foldl_cons, sevenMib_acc5, List.foldl_nil]

theorem pushFold_sevenMib :
    pushFold sevenMibLines =
      ((⟨7340032, 7, [mibEntry]⟩ : PushState),
        [[mibEntry, mibEntry, mibEntry, mibEntry, mibEntry], [mibEntry]], []) := by
  rw [pushFold, sevenMibLines]
  rw [List.foldl_cons, sevenMib_acc0, List.foldl_cons, sevenMib_acc1,
    List.foldl_cons, sevenMib_acc2, List.foldl_cons, sevenMib_acc3,
    List.foldl_cons, sevenMib_acc4, List.foldl_cons, sevenMib_acc5,
    List.foldl_cons, sevenMib_acc6, List.foldl_nil]

/-- C2 (exhibiting the bug): on the seventh of seven 1 MiB input lines the
code's byte pre-check fires — `num_bytes` was never reset by the
byte-triggered flush on line six — even though the current batch holds a
single 1 MiB record, so appending would reach only 2 MiB ≤ 5 MiB.  The run
therefore dispatches batches of 5, 1 and 1 records where flushing only when
the batch itself would exceed 5 MiB would dispatch 5 and 2. -/
theorem C2_byte_precheck_uses_stale_counter :
    ((pushFold (sevenMibLines.take 6)).1.num_bytes + (sevenMibLines.getD 6 []).length
        > 5 * ONE_MIB) ∧
    (batchBytes (pushFold (sevenMibLines.take 6)).1.records
        + (sevenMibLines.getD 6 []).length ≤ 5 * ONE_MIB) ∧
    (pushBatches sevenMibLines).map List.length = [5, 1, 1] := by
  have htake : sevenMibLines.take 6 = [mibLine, mibLine, mibLine, mibLine, mibLine, mibLine] :=
    rfl
  have hget : sevenMibLines.getD 6 [] = mibLine := rfl
  rw [htake, hget, pushFold_sixMib]
  refine ⟨?_, ?_, ?_⟩
  · rw [mibLine_length]
    show 6291456 + ONE_MIB > 5 * ONE_MIB
    rw [ONE_MIB]
    omega
  · have hrec6 : (((⟨6291456, 6, [mibEntry]⟩ : PushState),
        [[mibEntry, mibEntry, mibEntry, mibEntry, mibEntry]],
        ([] : List Nat))).1.records = [mibEntry] := rfl
    have hdata : mibEntry.data = mibLine := rfl
    rw [hrec6, batchBytes_singleton, hdata, mibLine_length, ONE_MIB]
    omega
  · rw [pushBatches, pushFold_sevenMib]
    have hc : (((⟨7340032, 7, [mibEntry]⟩ : PushState),
        [[mibEntry, mibEntry, mibEntry, mibEntry, mibEntry], [mibEntry]],
        ([] : List Nat))).1.records.length > 0 := by
      show ([mibEntry] : List PutRecordsRequestEntry).length > 0
      rw [List.length_singleton]
      omega
    rw [if_pos hc]
    rfl

/-! ### Tail loop runs (C4, C5) -/

theorem tailRun_none (script : List PollStep) : tailRun none script = ([], .drained) := by
  cases script <;> rfl

theorem tailRun_errStep (c : String) (e : String) (rest : List PollStep) :
    tailRun (some c) (.err e :: rest) = ([], .failed e) := rfl

theorem tailRun_ok_decoded (c : String) (out : RecordsOutput) (rest : List PollStep)
    (h : (decodeAll (out.records.getD [])).2 = none) :
    tailRun (some c) (.ok out :: rest) =
      ((decodeAll (out.records.getD [])).1 ++ (tailRun out.next_shard_iterator rest).1,
        (tailRun out.next_shard_iterator rest).2) := by
  rcases hq : decodeAll (out.records.getD []) with ⟨ls, err⟩
  rw [hq] at h
  simp only at h
  subst h
  rcases hr : tailRun out.next_shard_iterator rest with ⟨more, res⟩
  rw [tailRun, hq, hr]

/-- C4: a scripted sequence of successful poll responses, all decodable, whose
intermediate responses carry a next cursor and whose last response does not,
makes the tail loop emit exactly the concatenation of the decoded record
sequences of all responses, in order, and then terminate drained (no error).
Cursor absence is the sole exit taken. -/
theorem C4_drained_emits_all (c₀ : String) (outs : List RecordsOutput)
    (hne : outs ≠ [])
    (hmid : ∀ o ∈ outs.dropLast, o.next_shard_iterator.isSome = true)
    (hlast : (outs.getLast hne).next_shard_iterator = none)
    (hdec : ∀ o ∈ outs, (decodeAll (o.records.getD [])).2 = none) :
    tailRun (some c₀) (outs.map PollStep.ok) =
      ((outs.map (fun o => (decodeAll (o.records.getD [])).1)).flatten,
        TailOutcome.drained) := by
  induction outs generalizing c₀ with
  | nil => exact absurd rfl hne
  | cons o rest ih =>
    rw [List.map_cons, tailRun_ok_decoded c₀ o _ (hdec o (by simp))]
    cases rest with
    | nil =>
      have hl : o.next_shard_iterator = none := by simpa using hlast
      rw [hl]
      simp [tailRun_none]
    | cons o₂ rest₂ =>
      have hmido : o.next_shard_iterator.isSome = true := by
        apply hmid o
        simp [List.dropLast]
      obtain ⟨c₁, hc₁⟩ := Option.isSome_iff_exists.mp hmido
      have hlast' : ((o₂ :: rest₂).getLast (by simp)).next_shard_iterator = none := by
        rw [← List.getLast_cons (l := o₂ :: rest₂) (by simp)]
        exact hlast
      rw [hc₁, ih c₁ (by simp)
        (fun o' ho' => hmid o' (by simp [List.dropLast, ho']))
        hlast'
        (fun o' ho' => hdec o' (by simp [ho']))]
      simp

theorem C4_witness :
    tailRun (some "c0")
        ([(⟨some [⟨some [104, 105]⟩], some "c1"⟩ : RecordsOutput),
          ⟨none, none⟩].map PollStep.ok) =
      (([(⟨some [⟨some [104, 105]⟩], some "c1"⟩ : RecordsOutput),
          ⟨none, none⟩].map (fun o => (decodeAll (o.records.getD [])).1)).flatten,
        TailOutcome.drained) :=
  C4_drained_emits_all "c0" _ (by simp) (by decide) (by rfl) (by decide)

/-- C5: if some scripted poll call errors, the tail loop stops at that call
with exactly that error, having emitted only the decoded records of the
strictly earlier successful polls; the remainder of the script is never
consumed (no retry). -/
theorem C5_error_fails_immediately (c₀ : String) (pre : List RecordsOutput)
    (e : String) (rest : List PollStep)
    (hmid : ∀ o ∈ pre, o.next_shard_iterator.isSome = true)
    (hdec : ∀ o ∈ pre, (decodeAll (o.records.getD [])).2 = none) :
    tailRun (some c₀) (pre.map PollStep.ok ++ PollStep.err e :: rest) =
      ((pre.map (fun o => (decodeAll (o.records.getD [])).1)).flatten,
        TailOutcome.failed e) := by
  induction pre generalizing c₀ with
  | nil =>
    simp only [List.map_nil, List.nil_append, List.flatten_nil]
    exact tailRun_errStep c₀ e rest
  | cons o pre' ih =>
    rw [List.map_cons, List.cons_append, tailRun_ok_decoded c₀ o _ (hdec o (by simp))]
    obtain ⟨c₁, hc₁⟩ := Option.isSome_iff_exists.mp (hmid o (by simp))
    rw [hc₁, ih c₁ (fun o' h => hmid o' (by simp [h])) (fun o' h => hdec o' (by simp [h]))]
    simp

theorem C5_witness :
    tailRun (some "c0")
        ([(⟨some [⟨some [104]⟩], some "c1"⟩ : RecordsOutput)].map PollStep.ok ++
          PollStep.err "boom" :: [PollStep.ok ⟨some [⟨some [106]⟩], none⟩]) =
      (([(⟨some [⟨some [104]⟩], some "c1"⟩ : RecordsOutput)].map
          (fun o => (decodeAll (o.records.getD [])).1)).flatten,
        TailOutcome.failed "boom") :=
  C5_error_fails_immediately "c0" _ "boom" _ (by decide) (by decide)
